import Mathlib

/-!
Verification development for the nova server node graph
(src/source/server/group.hpp).

Two shallow embeddings are used:

* `Node`, an inductive tree of synths and groups, embeds the structural
  algorithms that walk the child hierarchy (`tail_nodes`,
  `has_synth_children`, `free_synths_deep`).  A group constructor carries
  the cached counters `child_synths_` / `child_groups_` and the ordered
  `child_nodes` collection of the C++ class `abstract_group`.

* `SrvState`, a flat state of parent pointers, reference counts, cached
  counters and child lists indexed by node ids, embeds the pointer-level
  primitives `server_node::set_parent`, `server_node::clear_parent`,
  `server_node::next_node` / `previous_node` and
  `abstract_group::free_children`.  Operations that can hit a failed
  assertion or dereference a null parent pointer return `Option`
  (`none` models the failure).
-/

namespace NovaServer

/-- A server node: a synth (leaf) or a group.  The group constructor
carries `is_parallel_`, the cached counts `child_synths_` and
`child_groups_`, and the ordered `child_nodes` collection. -/
inductive Node : Type
| synth : Node
| group (is_par : Bool) (child_synths child_groups : Nat)
    (child_nodes : List Node) : Node

/-- Embeds `server_node::is_synth`. -/
def is_synth : Node → Bool
| .synth => true
| .group _ _ _ _ => false

/-- Embeds `abstract_group::empty`: `child_nodes.empty()`.  A synth has
no child collection; the C++ code only calls `empty` on groups. -/
def node_empty : Node → Bool
| .synth => false
| .group _ _ _ cs => cs.isEmpty

mutual
/-- Size measure on nodes, used for termination of the tree
recursions below. -/
def nsize : Node → Nat
| .synth => 1
| .group _ _ _ cs => 1 + lsize cs

/-- Size measure on child lists. -/
def lsize : List Node → Nat
| [] => 0
| c :: rest => nsize c + lsize rest
end

theorem nsize_pos : ∀ n : Node, 1 ≤ nsize n
| .synth => by simp [nsize]
| .group _ _ _ cs => by simp [nsize]

theorem lsize_append : ∀ l₁ l₂ : List Node,
    lsize (l₁ ++ l₂) = lsize l₁ + lsize l₂
| [], l₂ => by simp [lsize]
| c :: rest, l₂ => by
    simp [lsize, lsize_append rest l₂]; omega

theorem lsize_reverse : ∀ l : List Node, lsize l.reverse = lsize l
| [] => rfl
| c :: rest => by
    simp [List.reverse_cons, lsize_append, lsize, lsize_reverse rest]
    omega

mutual
/-- Embeds the virtual `abstract_group::tail_nodes` dispatch.

A sequential group follows `group::tail_nodes`
(src/source/server/group.hpp lines 247-263): an empty group yields 0,
otherwise the children are scanned with a reverse iterator; a synth
yields 1, an empty child group is skipped, the first non-empty child
group is recursed into, and an exhausted scan yields 0.

The parallel case is `Modelled from the spec:` the body of
`parallel_group::tail_nodes` is not under src/ (only its declaration at
line 284); the spec states it is the sum of the tail counts over all
direct children.  A synth is given tail count 1, matching the spec rule
that a synth signals one completion. -/
def tail_nodes : Node → Nat
| .synth => 1
| .group false _ _ cs => if cs.isEmpty then 0 else tail_scan cs.reverse
| .group true _ _ cs => tail_sum cs
termination_by n => 2 * nsize n
decreasing_by
  all_goals simp_wf
  all_goals simp [nsize, lsize_reverse]
  all_goals omega

/-- The reverse-iterator loop of `group::tail_nodes`; its argument is
the reversed child list, so the head is the last child. -/
def tail_scan : List Node → Nat
| [] => 0
| c :: rest =>
    if is_synth c then 1
    else if node_empty c then tail_scan rest
    else tail_nodes c
termination_by l => 2 * lsize l + 1
decreasing_by
  all_goals simp_wf
  all_goals simp [lsize]
  all_goals have := nsize_pos c
  all_goals omega

/-- Sum of tail counts over a child list (parallel aggregation). -/
def tail_sum : List Node → Nat
| [] => 0
| c :: rest => tail_nodes c + tail_sum rest
termination_by l => 2 * lsize l + 1
decreasing_by
  all_goals simp_wf
  all_goals simp [lsize]
  all_goals have := nsize_pos c
  all_goals omega
end

mutual
/-- Embeds `abstract_group::has_synth_children`
(src/source/server/group.hpp lines 93-104): true if a direct child is a
synth or a child group recursively has synth children.  A synth
receiver never occurs in the C++ code; it is mapped to `false`. -/
def has_synth_children : Node → Bool
| .synth => false
| .group _ _ _ cs => has_synth_list cs

/-- The iteration of `has_synth_children` over the child collection. -/
def has_synth_list : List Node → Bool
| [] => false
| c :: rest =>
    if is_synth c then true
    else has_synth_children c || has_synth_list rest
end

/-- Number of direct synth children, as removed by
`remove_and_dispose_if(is_synth, clear_parent)`: each removed synth
runs `clear_parent`, which decrements the parent group's
`child_synths_` once. -/
def count_synth_children : List Node → Nat
| [] => 0
| c :: rest => (if is_synth c then 1 else 0) + count_synth_children rest

/-- Number of direct group children. -/
def count_group_children : List Node → Nat
| [] => 0
| c :: rest => (if is_synth c then 0 else 1) + count_group_children rest

mutual
/-- Embeds `abstract_group::free_synths_deep`
(src/source/server/group.hpp lines 166-177).  The C++ runs two phases:
`remove_and_dispose_if` removes every direct synth child (each disposal
runs `clear_parent`, decrementing this group's `child_synths_`), then
the loop recurses into every remaining child, which are all groups.
The embedding fuses the two phases into one pass over the child list,
which produces the same resulting tree. -/
def free_synths_deep : Node → Node
| .synth => .synth
| .group p sc gc cs =>
    .group p (sc - count_synth_children cs) gc (free_synths_list cs)

/-- One pass over a child list: synth children are removed, group
children are kept and recursed into. -/
def free_synths_list : List Node → List Node
| [] => []
| .synth :: rest => free_synths_list rest
| .group p sc gc cs :: rest =>
    free_synths_deep (.group p sc gc cs) :: free_synths_list rest
end

mutual
/-- Accuracy of the cached counters: every group's `child_synths_` and
`child_groups_` equal the actual direct-child counts.  This is the
reachable-state invariant maintained by `set_parent` / `clear_parent`
and assumed by the asserts in `free_synths_deep` and `free_children`. -/
def counters_accurate : Node → Bool
| .synth => true
| .group _ sc gc cs =>
    sc == count_synth_children cs && gc == count_group_children cs &&
    counters_accurate_list cs

/-- Counter accuracy for every node of a child list. -/
def counters_accurate_list : List Node → Bool
| [] => true
| c :: rest => counters_accurate c && counters_accurate_list rest
end

mutual
/-- True when the subtree contains no synth at all (the receiver
included). -/
def synth_free : Node → Bool
| .synth => false
| .group _ _ _ cs => synth_free_list cs

/-- Synth-freeness of every node of a child list. -/
def synth_free_list : List Node → Bool
| [] => true
| c :: rest => synth_free c && synth_free_list rest
end

mutual
/-- True when every group of the subtree (the receiver included) has a
cached `child_synths_` of zero. -/
def all_child_synths_zero : Node → Bool
| .synth => true
| .group _ sc _ cs => sc == 0 && all_child_synths_zero_list cs

/-- The same condition over a child list. -/
def all_child_synths_zero_list : List Node → Bool
| [] => true
| c :: rest => all_child_synths_zero c && all_child_synths_zero_list rest
end

mutual
/-- The group skeleton of a tree: synth leaves are dropped, groups are
kept with their `is_parallel_` flag and cached `child_groups_` count
(the cached synth count is zeroed, as it does not describe group
structure).  Two trees with the same skeleton have the same group
nodes, in the same arrangement, with the same `child_groups_`. -/
def group_skel : Node → Node
| .synth => .synth
| .group p _ gc cs => .group p 0 gc (group_skel_list cs)

/-- Skeleton of a child list: synths dropped, groups skeletonised. -/
def group_skel_list : List Node → List Node
| [] => []
| .synth :: rest => group_skel_list rest
| .group p sc gc cs :: rest =>
    group_skel (.group p sc gc cs) :: group_skel_list rest
end

/-- Flat pointer-level state of the node graph.  Nodes are identified
by natural-number ids.  `isSynth` is the immutable node kind
(`server_node::is_synth`), `parent` the `parent_` back pointer
(`none` models a null pointer), `refCount` the intrusive reference
count, `childSynths` / `childGroups` the cached counters
`child_synths_` / `child_groups_` of each group, and `children` the
ordered `child_nodes` collection of each group. -/
structure SrvState where
  isSynth : Nat → Bool
  parent : Nat → Option Nat
  refCount : Nat → Nat
  childSynths : Nat → Nat
  childGroups : Nat → Nat
  children : Nat → List Nat

/-- Embeds `server_node::set_parent` (src/source/server/group.hpp
lines 201-211): `add_ref(); assert(parent_ == 0); parent_ = parent;`
then the matching counter of the new parent is incremented.  A failing
assertion (the node already has a parent) aborts the call: `none`. -/
def set_parent (s : SrvState) (n p : Nat) : Option SrvState :=
  match s.parent n with
  | some _ => none
  | none => some { s with
      refCount := Function.update s.refCount n (s.refCount n + 1),
      parent := Function.update s.parent n (some p),
      childSynths :=
        if s.isSynth n then
          Function.update s.childSynths p (s.childSynths p + 1)
        else s.childSynths,
      childGroups :=
        if s.isSynth n then s.childGroups
        else Function.update s.childGroups p (s.childGroups p + 1) }

/-- Embeds `server_node::clear_parent` (src/source/server/group.hpp
lines 190-199): the matching counter of `parent_` is decremented, the
parent pointer is nulled and the reference taken at attach time is
released.  The function dereferences `parent_` without any null check,
so a node without a parent makes the call undefined: `none`. -/
def clear_parent (s : SrvState) (n : Nat) : Option SrvState :=
  match s.parent n with
  | none => none
  | some p => some { s with
      childSynths :=
        if s.isSynth n then
          Function.update s.childSynths p (s.childSynths p - 1)
        else s.childSynths,
      childGroups :=
        if s.isSynth n then s.childGroups
        else Function.update s.childGroups p (s.childGroups p - 1),
      parent := Function.update s.parent n none,
      refCount := Function.update s.refCount n (s.refCount n - 1) }

/-- Embeds the iterator walk of `abstract_group::next_node`
(src/source/server/group.hpp lines 139-147) over a child list: the
`assert(has_child(node))` is the `none` of a failed search, the
`child_nodes.end()` sentinel is the inner `none`, and otherwise the
element after the first occurrence of `n` is returned. -/
def group_next_node : List Nat → Nat → Option (Option Nat)
| [], _ => none
| c :: rest, n => if c = n then some rest.head? else group_next_node rest n

/-- The backward step of `abstract_group::previous_node` once the head
has been passed: `prev` is the element before the current position. -/
def group_previous_aux : Nat → List Nat → Nat → Option (Option Nat)
| _, [], _ => none
| prev, c :: rest, n =>
    if c = n then some (some prev) else group_previous_aux c rest n

/-- Embeds `abstract_group::previous_node` (src/source/server/group.hpp
lines 149-157): a failed `assert(has_child(node))` is `none`, the
`child_nodes.begin()` sentinel is the inner `none`, and otherwise the
element before the first occurrence of `n` is returned. -/
def group_previous_node : List Nat → Nat → Option (Option Nat)
| [], _ => none
| c :: rest, n =>
    if c = n then some none else group_previous_aux c rest n

/-- Embeds `server_node::next_node` (src/source/server/group.hpp lines
220-223): `parent_->next_node(this)` dereferences the parent pointer
without a null check, so a detached node makes the call undefined:
`none`. -/
def next_node (s : SrvState) (n : Nat) : Option (Option Nat) :=
  match s.parent n with
  | none => none
  | some p => group_next_node (s.children p) n

/-- Embeds `server_node::previous_node` (src/source/server/group.hpp
lines 215-218), with the same null-parent behaviour. -/
def previous_node (s : SrvState) (n : Nat) : Option (Option Nat) :=
  match s.parent n with
  | none => none
  | some p => group_previous_node (s.children p) n

/-- A tree mutation issued by the control layer: attach node `n` to
group `g` at position `pos` of the child collection, or detach node `n`
from group `g`. -/
inductive TreeOp : Type
| attach (n g pos : Nat) : TreeOp
| detach (n g : Nat) : TreeOp

/-- One mutation step.

Modelled from the spec: the bodies of `abstract_group::add_child` and
`abstract_group::remove_child` are not under src/ (they live in
group.cpp; only their declarations appear in the header).  Per the
spec, `add_child` inserts the node into the parent's ordered collection
at the requested position (failing on an invalid position) and calls
attach, and `remove_child` fails when the node is not a direct child
and otherwise detaches it; `abstract_group::free_children` in the
header confirms the pairing of list removal with `clear_parent`.  The
attach / detach themselves are the `set_parent` / `clear_parent`
embeddings from the source. -/
def apply_op (s : SrvState) : TreeOp → Option SrvState
| .attach n g pos =>
    if pos ≤ (s.children g).length then
      (set_parent s n g).map (fun s' =>
        { s' with children :=
            Function.update s'.children g ((s'.children g).insertIdx pos n) })
    else none
| .detach n g =>
    if n ∈ s.children g then
      (clear_parent s n).map (fun s' =>
        { s' with children :=
            Function.update s'.children g ((s'.children g).erase n) })
    else none

/-- Runs a sequence of mutations, stopping at the first failure. -/
def run_ops : SrvState → List TreeOp → Option SrvState
| s, [] => some s
| s, op :: rest =>
    match apply_op s op with
    | none => none
    | some s' => run_ops s' rest

/-- The empty server state: no node has a parent, every collection is
empty and every counter is zero.  The kind assignment `k` is free. -/
def init_state (k : Nat → Bool) : SrvState :=
  { isSynth := k, parent := fun _ => none, refCount := fun _ => 0,
    childSynths := fun _ => 0, childGroups := fun _ => 0,
    children := fun _ => [] }

/-- Embeds `abstract_group::child_count` (src/source/server/group.hpp
lines 107-110): `child_synths_ + child_groups_`. -/
def child_count (s : SrvState) (g : Nat) : Nat :=
  s.childSynths g + s.childGroups g

/-- The disposal loop of `clear_and_dispose`: each child of the list is
passed to `clear_parent`. -/
def fold_clear : SrvState → List Nat → Option SrvState
| s, [] => some s
| s, c :: rest =>
    match clear_parent s c with
    | none => none
    | some s' => fold_clear s' rest

/-- Embeds `abstract_group::free_children` (src/source/server/group.hpp
lines 159-164):
`child_nodes.clear_and_dispose(mem_fn(&server_node::clear_parent))`
unlinks every element of the child collection and runs `clear_parent`
on it, leaving the collection empty. -/
def free_children (s : SrvState) (g : Nat) : Option SrvState :=
  (fold_clear s (s.children g)).map (fun s' =>
    { s' with children := Function.update s'.children g [] })

/-- A state with a single detached synth node 0. -/
def detached_state : SrvState :=
  { isSynth := fun _ => true, parent := fun _ => none,
    refCount := fun _ => 1, childSynths := fun _ => 0,
    childGroups := fun _ => 0, children := fun _ => [] }

/-- A state of two groups where node 1 is a child (hence a descendant)
of the root group 0, and group 0 itself is detached. -/
def cycle_state : SrvState :=
  { isSynth := fun _ => false,
    parent := fun n => if n = 1 then some 0 else none,
    refCount := fun _ => 1,
    childSynths := fun _ => 0,
    childGroups := fun g => if g = 0 then 1 else 0,
    children := fun g => if g = 0 then [1] else [] }

/-- A sequential group holding a synth followed by a non-empty child
group whose only child is an empty group; the backward tail scan
recurses into that child group and returns its 0 unconditionally. -/
def tail_zero_example : Node :=
  .group false 0 2 [.synth, .group false 0 1 [.group false 0 0 []]]

/-- A group 9 with the three synth children 1, 2, 3; node 7 is
detached. -/
def sibling_state : SrvState :=
  { isSynth := fun _ => true,
    parent := fun n => if 1 ≤ n ∧ n ≤ 3 then some 9 else none,
    refCount := fun _ => 1,
    childSynths := fun g => if g = 9 then 3 else 0,
    childGroups := fun _ => 0,
    children := fun g => if g = 9 then [1, 2, 3] else [] }

/-- A group 0 holding the synth 1 and the (empty) group 2, with
accurate cached counters. -/
def bulk_state : SrvState :=
  { isSynth := fun n => n == 1,
    parent := fun n => if n = 1 ∨ n = 2 then some 0 else none,
    refCount := fun _ => 1,
    childSynths := fun g => if g = 0 then 1 else 0,
    childGroups := fun g => if g = 0 then 1 else 0,
    children := fun g => if g = 0 then [1, 2] else [] }

theorem tail_sum_eq_map_sum : ∀ cs : List Node,
    tail_sum cs = (cs.map tail_nodes).sum
| [] => by simp [tail_sum]
| c :: rest => by simp [tail_sum, tail_sum_eq_map_sum rest]

theorem group_next_node_at : ∀ (xs ys : List Nat) (n : Nat), n ∉ xs →
    group_next_node (xs ++ n :: ys) n = some ys.head?
| [], ys, n, _ => by simp [group_next_node]
| x :: xs, ys, n, h => by
    have hx : ¬ x = n := fun he => h (by simp [he])
    have hrest : n ∉ xs := fun hm => h (by simp [hm])
    simp [group_next_node, hx, group_next_node_at xs ys n hrest]

theorem group_previous_aux_at : ∀ (xs : List Nat) (prev : Nat)
    (ys : List Nat) (n : Nat), n ∉ xs →
    group_previous_aux prev (xs ++ n :: ys) n = some (prev :: xs).getLast?
| [], prev, ys, n, _ => by simp [group_previous_aux]
| x :: xs, prev, ys, n, h => by
    have hx : ¬ x = n := fun he => h (by simp [he])
    have hrest : n ∉ xs := fun hm => h (by simp [hm])
    rw [List.cons_append, group_previous_aux, if_neg hx,
      group_previous_aux_at xs x ys n hrest, List.getLast?_cons_cons]

theorem group_previous_node_at : ∀ (xs ys : List Nat) (n : Nat), n ∉ xs →
    group_previous_node (xs ++ n :: ys) n = some xs.getLast?
| [], ys, n, _ => by simp [group_previous_node]
| x :: xs, ys, n, h => by
    have hx : ¬ x = n := fun he => h (by simp [he])
    have hrest : n ∉ xs := fun hm => h (by simp [hm])
    rw [List.cons_append, group_previous_node, if_neg hx,
      group_previous_aux_at xs x ys n hrest]

/-- C2: for a sequential group, `group::tail_nodes` computes exactly
the spec's backward-scan algorithm: an empty group yields 0, a trailing
synth yields 1, a trailing empty child group is skipped (the result is
that of the group without it, scanning on toward the first child), and
the first non-empty trailing child group is recursed into. -/
theorem tail_nodes_seq_characterization :
    ∀ (sc gc : Nat) (cs : List Node) (c : Node),
    tail_nodes (.group false sc gc []) = 0
    ∧ (is_synth c = true →
        tail_nodes (.group false sc gc (cs ++ [c])) = 1)
    ∧ (is_synth c = false → node_empty c = true →
        tail_nodes (.group false sc gc (cs ++ [c]))
          = tail_nodes (.group false sc gc cs))
    ∧ (is_synth c = false → node_empty c = false →
        tail_nodes (.group false sc gc (cs ++ [c])) = tail_nodes c) := by
  intro sc gc cs c
  refine ⟨by simp [tail_nodes], ?_, ?_, ?_⟩
  · intro hc
    simp [tail_nodes, tail_scan, hc]
  · intro hc he
    by_cases hcs : cs = []
    · subst hcs
      simp [tail_nodes, tail_scan, hc, he]
    · have hne : cs.isEmpty = false := by
        simpa [List.isEmpty_iff] using hcs
      simp [tail_nodes, tail_scan, hc, he, hne]
  · intro hc he
    simp [tail_nodes, tail_scan, hc, he]

/-- C2 witness: a sequential group ending in a synth has tail count 1. -/
theorem tail_nodes_seq_characterization_witness :
    tail_nodes (.group false 0 0 [.synth]) = 1 :=
  (tail_nodes_seq_characterization 0 0 [] .synth).2.1 rfl

/-- C5: `parallel_group::tail_nodes` is the sum of the tail counts of
all direct children, and an empty child group contributes 0 to that
sum. -/
theorem tail_nodes_par_sum : ∀ (sc gc : Nat) (cs : List Node) (c : Node),
    tail_nodes (.group true sc gc cs) = (cs.map tail_nodes).sum
    ∧ (is_synth c = false → node_empty c = true → tail_nodes c = 0) := by
  intro sc gc cs c
  constructor
  · simp [tail_nodes, tail_sum_eq_map_sum]
  · intro hc he
    match c, hc with
    | .group p sc' gc' cs', _ =>
      have : cs' = [] := List.isEmpty_iff.mp (by simpa [node_empty] using he)
      subst this
      cases p <;> simp [tail_nodes, tail_sum]

/-- C5 witness: a parallel group of two synths has tail count 2, and an
empty sequential child group has tail count 0. -/
theorem tail_nodes_par_sum_witness :
    tail_nodes (.group true 0 0 [.synth, .synth])
      = ([Node.synth, Node.synth].map tail_nodes).sum
    ∧ tail_nodes (.group false 0 0 []) = 0 :=
  ⟨(tail_nodes_par_sum 0 0 [.synth, .synth] (.group false 0 0 [])).1,
   (tail_nodes_par_sum 0 0 [.synth, .synth] (.group false 0 0 [])).2 rfl rfl⟩

/-- C10: a sequential group whose last child is a non-empty group
holding only an empty group has `tail_nodes` 0 although a synth sits
among its children: the backward scan recurses into the trailing group
and returns its 0 without ever looking at the earlier synth, so a tail
count of 0 does not imply `has_synth_children` is false. -/
theorem tail_nodes_zero_despite_synth_descendant :
    tail_nodes tail_zero_example = 0
    ∧ has_synth_children tail_zero_example = true := by
  constructor
  · simp [tail_zero_example, tail_nodes, tail_scan, is_synth, node_empty]
  · simp [tail_zero_example, has_synth_children, has_synth_list, is_synth]

/-- C3 counterexample: detaching the parentless node 0 is not a no-op:
`clear_parent` dereferences the null `parent_` pointer, modelled as
`none`, instead of returning the state unchanged. -/
theorem clear_parent_detached_counterexample :
    detached_state.parent 0 = none
    ∧ clear_parent detached_state 0 = none :=
  ⟨rfl, rfl⟩

/-- C3 amended: `clear_parent` requires the node to have a parent; on a
node whose parent pointer is null it dereferences the null pointer
(undefined behaviour, modelled as `none`) rather than being a no-op. -/
theorem clear_parent_requires_parent :
    ∀ (s : SrvState) (n : Nat), s.parent n = none →
    clear_parent s n = none := by
  intro s n h
  simp [clear_parent, h]

/-- C3 witness for the amended theorem. -/
theorem clear_parent_requires_parent_witness :
    clear_parent detached_state 1 = none :=
  clear_parent_requires_parent detached_state 1 rfl

/-- C4 counterexample: in `cycle_state`, node 1 is a direct child
(hence a descendant) of node 0, yet `set_parent cycle_state 0 1`
succeeds — there is no cycle check — and produces the cycle
`parent 0 = 1`, `parent 1 = 0`. -/
theorem set_parent_cycle_counterexample :
    cycle_state.parent 1 = some 0
    ∧ cycle_state.children 0 = [1]
    ∧ (set_parent cycle_state 0 1).map
        (fun s' => (s'.parent 0, s'.parent 1))
      = some (some 1, some 0) := by
  refine ⟨rfl, rfl, ?_⟩
  decide

/-- C4 amended: `set_parent` fails (assertion `parent_ == 0`) exactly
when the node already has a parent; it performs no descendant / cycle
check.  On success the reference count is incremented, the parent
pointer is set, and the matching cached counter of the new parent is
incremented. -/
theorem set_parent_spec : ∀ (s : SrvState) (n p : Nat),
    (s.parent n ≠ none → set_parent s n p = none)
    ∧ (s.parent n = none →
        ∃ s', set_parent s n p = some s'
          ∧ s'.parent n = some p
          ∧ s'.refCount n = s.refCount n + 1
          ∧ (s.isSynth n = true →
              s'.childSynths p = s.childSynths p + 1
              ∧ s'.childGroups p = s.childGroups p)
          ∧ (s.isSynth n = false →
              s'.childGroups p = s.childGroups p + 1
              ∧ s'.childSynths p = s.childSynths p)) := by
  intro s n p
  constructor
  · intro h
    match hp : s.parent n, h with
    | some q, _ => simp [set_parent, hp]
  · intro h
    refine ⟨{ s with
        refCount := Function.update s.refCount n (s.refCount n + 1),
        parent := Function.update s.parent n (some p),
        childSynths :=
          if s.isSynth n then
            Function.update s.childSynths p (s.childSynths p + 1)
          else s.childSynths,
        childGroups :=
          if s.isSynth n then s.childGroups
          else Function.update s.childGroups p (s.childGroups p + 1) },
      by simp [set_parent, h], ?_, ?_, ?_, ?_⟩
    · simp [Function.update_same]
    · simp [Function.update_same]
    · intro hk
      simp [hk, Function.update_same]
    · intro hk
      simp [hk, Function.update_same]

/-- C4 witness for the amended theorem: attaching the detached node 0
to group 5 succeeds. -/
theorem set_parent_spec_witness :
    (set_parent detached_state 0 5).isSome = true := by
  obtain ⟨s', hs, _⟩ := (set_parent_spec detached_state 0 5).2 rfl
  simp [hs]

/-- C9: attaching a parentless node to a group and detaching it again
is a round trip: the composite succeeds, and afterwards the parent
pointer is null again while the reference count and the group's two
cached counters have their pre-attach values. -/
theorem attach_detach_roundtrip : ∀ (s : SrvState) (n p : Nat),
    s.parent n = none →
    ((set_parent s n p).bind (fun s₁ => clear_parent s₁ n)).map
      (fun s₂ => (s₂.parent n, s₂.refCount n,
        s₂.childSynths p, s₂.childGroups p))
    = some (none, s.refCount n, s.childSynths p, s.childGroups p) := by
  intro s n p h
  by_cases hk : s.isSynth n
  all_goals
    simp [set_parent, clear_parent, h, hk, Function.update_same]

/-- C9 witness: the round trip through group 5 for the detached node
0 restores reference count 1 and zero counters. -/
theorem attach_detach_roundtrip_witness :
    ((set_parent detached_state 0 5).bind
        (fun s₁ => clear_parent s₁ 0)).map
      (fun s₂ => (s₂.parent 0, s₂.refCount 0,
        s₂.childSynths 5, s₂.childGroups 5))
    = some (none, 1, 0, 0) :=
  attach_detach_roundtrip detached_state 0 5 rfl

/-- C6: sibling lookup.  With a null parent pointer both
`server_node::next_node` and `previous_node` fail (the code
dereferences the null parent; the embedding yields `none`).  With a
parent whose collection splits as `xs ++ n :: ys`, `next_node` returns
the head of `ys` (the null sentinel when `n` is last) and
`previous_node` returns the last element of `xs` (the null sentinel
when `n` is first). -/
theorem sibling_lookup : ∀ (s : SrvState) (n p : Nat) (xs ys : List Nat),
    (s.parent n = none →
      next_node s n = none ∧ previous_node s n = none)
    ∧ (s.parent n = some p → s.children p = xs ++ n :: ys → n ∉ xs →
        next_node s n = some ys.head?
        ∧ previous_node s n = some xs.getLast?) := by
  intro s n p xs ys
  constructor
  · intro h
    constructor <;> simp [next_node, previous_node, h]
  · intro hp hc hn
    constructor
    · simp [next_node, hp, hc, group_next_node_at xs ys n hn]
    · simp [previous_node, hp, hc, group_previous_node_at xs ys n hn]

/-- C6 witness: in `sibling_state` (group 9 with children `[1, 2, 3]`)
node 2 has neighbours 1 and 3, node 3 is last (null sentinel), node 1
is first (null sentinel), and the detached node 7 fails both lookups. -/
theorem sibling_lookup_witness :
    next_node sibling_state 2 = some (some 3)
    ∧ previous_node sibling_state 2 = some (some 1)
    ∧ next_node sibling_state 3 = some none
    ∧ previous_node sibling_state 1 = some none
    ∧ next_node sibling_state 7 = none :=
  ⟨((sibling_lookup sibling_state 2 9 [1] [3]).2 (by decide) rfl
      (by decide)).1,
   ((sibling_lookup sibling_state 2 9 [1] [3]).2 (by decide) rfl
      (by decide)).2,
   ((sibling_lookup sibling_state 3 9 [1, 2] []).2 (by decide) rfl
      (by decide)).1,
   ((sibling_lookup sibling_state 1 9 [] [2, 3]).2 (by decide) rfl
      (by decide)).2,
   ((sibling_lookup sibling_state 7 0 [] []).1 (by decide)).1⟩

/-- Consistency of a server state: for every group the cached counters
match the actual kind counts of the child collection, every listed
child points back to its group, and no child is listed twice.  This is
the reachable-state invariant of the attach / detach protocol. -/
def counts_ok (s : SrvState) : Prop :=
  ∀ g : Nat,
    s.childSynths g = (s.children g).countP (fun c => s.isSynth c)
    ∧ s.childGroups g = (s.children g).countP (fun c => !s.isSynth c)
    ∧ (∀ c ∈ s.children g, s.parent c = some g)
    ∧ (s.children g).Nodup

theorem counts_ok_init (k : Nat → Bool) : counts_ok (init_state k) := by
  intro g
  simp [init_state]

theorem counts_ok_step (s : SrvState) (op : TreeOp) (s' : SrvState)
    (hInv : counts_ok s) (h : apply_op s op = some s') : counts_ok s' := by
  cases op with
  | attach n g pos =>
    simp only [apply_op] at h
    by_cases hpos : pos ≤ (s.children g).length
    · rw [if_pos hpos] at h
      cases hp : s.parent n with
      | some q => simp [set_parent, hp] at h
      | none =>
        simp only [set_parent, hp, Option.map_some] at h
        have hnotin : ∀ h' : Nat, n ∉ s.children h' := by
          intro h' hmem
          have := (hInv h').2.2.1 n hmem
          rw [hp] at this
          exact Option.noConfusion this
        have hperm := List.perm_insertIdx n (s.children g) hpos
        cases h
        intro j
        dsimp only
        by_cases hj : j = g
        · subst hj
          have hcount : ∀ p : Nat → Bool,
              ((s.children j).insertIdx pos n).countP p
              = (s.children j).countP p + if p n then 1 else 0 := by
            intro p
            rw [hperm.countP_eq p, List.countP_cons]
          refine ⟨?_, ?_, ?_, ?_⟩
          · by_cases hk : s.isSynth n
            all_goals
              simp [hk, Function.update_same, hcount, (hInv j).1]
          · by_cases hk : s.isSynth n
            all_goals
              simp [hk, Function.update_same, hcount, (hInv j).2.1]
          · intro c hc
            simp only [Function.update_same] at hc
            rcases (List.mem_insertIdx hpos).mp hc with hceq | hcmem
            · subst hceq
              simp [Function.update_same]
            · have hne : c ≠ n := fun he => hnotin j (he ▸ hcmem)
              simp [Function.update_noteq hne, (hInv j).2.2.1 c hcmem]
          · simp only [Function.update_same]
            exact hperm.nodup_iff.mpr
              (List.nodup_cons.mpr ⟨hnotin j, (hInv j).2.2.2⟩)
        · have hch : Function.update s.children g
              ((s.children g).insertIdx pos n) j = s.children j :=
            Function.update_noteq hj _ _
          refine ⟨?_, ?_, ?_, ?_⟩
          · by_cases hk : s.isSynth n
            all_goals
              simp [hk, hch, Function.update_noteq hj, (hInv j).1]
          · by_cases hk : s.isSynth n
            all_goals
              simp [hk, hch, Function.update_noteq hj, (hInv j).2.1]
          · intro c hc
            rw [hch] at hc
            have hne : c ≠ n := fun he => hnotin j (he ▸ hc)
            simp [Function.update_noteq hne, (hInv j).2.2.1 c hc]
          · rw [hch]
            exact (hInv j).2.2.2
    · simp [hpos] at h
  | detach n g =>
    simp only [apply_op] at h
    by_cases hmem : n ∈ s.children g
    · rw [if_pos hmem] at h
      have hp : s.parent n = some g := (hInv g).2.2.1 n hmem
      simp only [clear_parent, hp, Option.map_some] at h
      have hperm := List.perm_cons_erase hmem
      cases h
      intro j
      dsimp only
      by_cases hj : j = g
      · subst hj
        have hcount : ∀ p : Nat → Bool,
            (s.children j).countP p
            = ((s.children j).erase n).countP p + if p n then 1 else 0 := by
          intro p
          rw [hperm.countP_eq p, List.countP_cons]
        refine ⟨?_, ?_, ?_, ?_⟩
        · by_cases hk : s.isSynth n
          all_goals
            have h1 := hcount (fun c => s.isSynth c)
            simp only [hk] at h1
            simp [hk, Function.update_same, (hInv j).1, h1]
        · by_cases hk : s.isSynth n
          all_goals
            have h1 := hcount (fun c => !s.isSynth c)
            simp only [hk] at h1
            simp [hk, Function.update_same, (hInv j).2.1, h1]
        · intro c hc
          simp only [Function.update_same] at hc
          have hcn : c ≠ n ∧ c ∈ s.children j :=
            ((hInv j).2.2.2.mem_erase_iff).mp hc
          simp [Function.update_noteq hcn.1, (hInv j).2.2.1 c hcn.2]
        · simp only [Function.update_same]
          exact (hInv j).2.2.2.erase n
      · have hch : Function.update s.children g
            ((s.children g).erase n) j = s.children j :=
          Function.update_noteq hj _ _
        refine ⟨?_, ?_, ?_, ?_⟩
        · by_cases hk : s.isSynth n
          all_goals
            simp [hk, hch, Function.update_noteq hj, (hInv j).1]
        · by_cases hk : s.isSynth n
          all_goals
            simp [hk, hch, Function.update_noteq hj, (hInv j).2.1]
        · intro c hc
          rw [hch] at hc
          have hne : c ≠ n := by
            intro he
            subst he
            have := (hInv j).2.2.1 c hc
            rw [hp] at this
            exact hj (Option.some_injective _ this).symm
          simp [Function.update_noteq hne, (hInv j).2.2.1 c hc]
        · rw [hch]
          exact (hInv j).2.2.2
    · simp [hmem] at h

theorem counts_ok_run : ∀ (ops : List TreeOp) (s s' : SrvState),
    counts_ok s → run_ops s ops = some s' → counts_ok s'
| [], s, s', hInv, h => by
    simp only [run_ops] at h
    cases h
    exact hInv
| op :: rest, s, s', hInv, h => by
    simp only [run_ops] at h
    cases hstep : apply_op s op with
    | none => rw [hstep] at h; exact Option.noConfusion h
    | some s₁ =>
      rw [hstep] at h
      exact counts_ok_run rest s₁ s'
        (counts_ok_step s op s₁ hInv hstep) h

/-- C1: after any sequence of attach / detach operations from the
empty state, `abstract_group::child_count` — the cached
`child_synths_ + child_groups_` — equals the length of the group's
child collection, for every group.  Since every intermediate state of a
run is itself the result of a shorter run, the invariant holds after
every operation. -/
theorem child_count_matches_collection :
    ∀ (k : Nat → Bool) (ops : List TreeOp) (s' : SrvState) (g : Nat),
    run_ops (init_state k) ops = some s' →
    child_count s' g = (s'.children g).length := by
  intro k ops s' g h
  have hInv := counts_ok_run ops (init_state k) s' (counts_ok_init k) h
  have h1 := (hInv g).1
  have h2 := (hInv g).2.1
  have hlen := List.length_eq_countP_add_countP
    (fun c => s'.isSynth c) (s'.children g)
  simp only [child_count, h1, h2]
  simpa using hlen.symm

/-- C1 witness: attaching synth 1 and group 2 to group 0 and detaching
synth 1 leaves `child_count` 1 matching a collection of length 1. -/
theorem child_count_matches_collection_witness :
    (run_ops (init_state (fun n => n == 1))
        [.attach 1 0 0, .attach 2 0 1, .detach 1 0]).map
      (fun s' => (child_count s' 0, (s'.children 0).length))
    = some (1, 1) := by
  cases hr : run_ops (init_state (fun n => n == 1))
      [.attach 1 0 0, .attach 2 0 1, .detach 1 0] with
  | none => exact Option.noConfusion hr
  | some s' =>
    have hcc := child_count_matches_collection (fun n => n == 1)
      [.attach 1 0 0, .attach 2 0 1, .detach 1 0] s' 0 hr
    have hs' := Option.some.inj hr
    have hlen : (s'.children 0).length = 1 := by
      rw [← hs']
      rfl
    simp [hcc, hlen]

theorem node_list_ind {P : Node → Prop} {Q : List Node → Prop}
    (h1 : P .synth)
    (h2 : ∀ p sc gc cs, Q cs → P (.group p sc gc cs))
    (h3 : Q [])
    (h4 : ∀ c cs, P c → Q cs → Q (c :: cs)) :
    (∀ n, P n) ∧ (∀ cs, Q cs) := by
  have hP : ∀ n, P n := fun n => @Node.rec P Q h1 h2 h3 h4 n
  exact ⟨hP, fun cs => List.rec h3 (fun c cs hcs => h4 c cs (hP c) hcs) cs⟩

theorem free_synths_deep_aux :
    (∀ n : Node, counters_accurate n = true → is_synth n = false →
      synth_free (free_synths_deep n) = true
      ∧ all_child_synths_zero (free_synths_deep n) = true
      ∧ group_skel (free_synths_deep n) = group_skel n)
    ∧ (∀ cs : List Node, counters_accurate_list cs = true →
      synth_free_list (free_synths_list cs) = true
      ∧ all_child_synths_zero_list (free_synths_list cs) = true
      ∧ group_skel_list (free_synths_list cs) = group_skel_list cs) := by
  apply node_list_ind
  · intro _ hk
    exact absurd hk (by simp [is_synth])
  · intro p sc gc cs hQ hacc _
    have hacc' : (sc = count_synth_children cs
        ∧ gc = count_group_children cs)
        ∧ counters_accurate_list cs = true := by
      simpa [counters_accurate] using hacc
    obtain ⟨hsf, hz, hsk⟩ := hQ hacc'.2
    refine ⟨?_, ?_, ?_⟩
    · simpa [free_synths_deep, synth_free] using hsf
    · simp [free_synths_deep, all_child_synths_zero, hacc'.1.1, hz]
    · simp [free_synths_deep, group_skel, hsk]
  · intro _
    simp [free_synths_list, synth_free_list,
      all_child_synths_zero_list, group_skel_list]
  · intro c cs hP hQ hacc
    match c with
    | .synth =>
      have hacc' : counters_accurate_list cs = true := by
        simpa [counters_accurate_list, counters_accurate] using hacc
      obtain ⟨hsf, hz, hsk⟩ := hQ hacc'
      simp [free_synths_list, group_skel_list, hsf, hz, hsk]
    | .group p sc gc cs' =>
      have hacc' : counters_accurate (.group p sc gc cs') = true
          ∧ counters_accurate_list cs = true := by
        simpa [counters_accurate_list] using hacc
      obtain ⟨hsf, hz, hsk⟩ := hP hacc'.1 (by simp [is_synth])
      obtain ⟨hsf2, hz2, hsk2⟩ := hQ hacc'.2
      have hfsd : ∃ q sc2 gc2 cs2,
          free_synths_deep (.group p sc gc cs') = .group q sc2 gc2 cs2 := by
        simp [free_synths_deep]
      obtain ⟨q, sc2, gc2, cs2, hfsd⟩ := hfsd
      refine ⟨?_, ?_, ?_⟩
      · simp [free_synths_list, synth_free_list, hsf, hsf2]
      · simp [free_synths_list, all_child_synths_zero_list, hz, hz2]
      · rw [show free_synths_list (Node.group p sc gc cs' :: cs)
            = free_synths_deep (.group p sc gc cs') :: free_synths_list cs
            from by simp [free_synths_list]]
        rw [hfsd]
        simp only [group_skel_list]
        rw [← hfsd, hsk, hsk2]

/-- C7: on a group with accurate cached counters,
`abstract_group::free_synths_deep` removes every descendant synth
(direct and nested), afterwards every group of the subtree — the
receiver included — has `child_synths_ == 0`, and the group structure
is untouched: the group skeleton, including every group's
`child_groups_`, is unchanged. -/
theorem free_synths_deep_spec :
    ∀ (p : Bool) (sc gc : Nat) (cs : List Node),
    counters_accurate (.group p sc gc cs) = true →
    synth_free (free_synths_deep (.group p sc gc cs)) = true
    ∧ all_child_synths_zero (free_synths_deep (.group p sc gc cs)) = true
    ∧ group_skel (free_synths_deep (.group p sc gc cs))
        = group_skel (.group p sc gc cs) := by
  intro p sc gc cs hacc
  exact free_synths_deep_aux.1 (.group p sc gc cs) hacc (by simp [is_synth])

/-- C7 witness: a two-level group tree with accurate counters. -/
theorem free_synths_deep_spec_witness :
    synth_free (free_synths_deep
        (.group false 1 1 [.synth, .group false 1 0 [.synth]])) = true
    ∧ all_child_synths_zero (free_synths_deep
        (.group false 1 1 [.synth, .group false 1 0 [.synth]])) = true
    ∧ group_skel (free_synths_deep
        (.group false 1 1 [.synth, .group false 1 0 [.synth]]))
      = group_skel (.group false 1 1 [.synth, .group false 1 0 [.synth]]) :=
  free_synths_deep_spec false 1 1 [.synth, .group false 1 0 [.synth]]
    (by simp [counters_accurate, counters_accurate_list,
      count_synth_children, count_group_children, is_synth])

theorem fold_clear_ok : ∀ (cs : List Nat) (s : SrvState) (g : Nat),
    (∀ c ∈ cs, s.parent c = some g) → cs.Nodup →
    ∃ s', fold_clear s cs = some s'
      ∧ s'.isSynth = s.isSynth
      ∧ s'.children = s.children
      ∧ (∀ n, n ∉ cs → s'.parent n = s.parent n)
      ∧ (∀ n, n ∉ cs → s'.refCount n = s.refCount n)
      ∧ (∀ c ∈ cs, s'.parent c = none)
      ∧ (∀ c ∈ cs, s'.refCount c = s.refCount c - 1)
      ∧ s'.childSynths g = s.childSynths g
          - cs.countP (fun c => s.isSynth c)
      ∧ s'.childGroups g = s.childGroups g
          - cs.countP (fun c => !s.isSynth c) := by
  intro cs
  induction cs with
  | nil =>
    intro s g _ _
    exact ⟨s, rfl, rfl, rfl, fun _ _ => rfl, fun _ _ => rfl,
      fun c hc => absurd hc (List.not_mem_nil c),
      fun c hc => absurd hc (List.not_mem_nil c), by simp, by simp⟩
  | cons c rest ih =>
    intro s g hpar hnd
    have hpc : s.parent c = some g := hpar c (List.mem_cons_self c rest)
    have hcr : c ∉ rest := (List.nodup_cons.mp hnd).1
    have hndr : rest.Nodup := (List.nodup_cons.mp hnd).2
    obtain ⟨s', hfold, hik, hch, hpfr, hrfr, hpin, hrin, hcs, hcg⟩ :=
      ih { s with
            childSynths :=
              if s.isSynth c then
                Function.update s.childSynths g (s.childSynths g - 1)
              else s.childSynths,
            childGroups :=
              if s.isSynth c then s.childGroups
              else Function.update s.childGroups g (s.childGroups g - 1),
            parent := Function.update s.parent c none,
            refCount := Function.update s.refCount c (s.refCount c - 1) }
        g
        (by
          intro c' hc'
          have hne : c' ≠ c := fun he => hcr (he ▸ hc')
          dsimp only
          rw [Function.update_noteq hne]
          exact hpar c' (List.mem_cons_of_mem c hc'))
        hndr
    dsimp only at hik hch hpfr hrfr hpin hrin hcs hcg
    refine ⟨s', ?_, ?_, ?_, ?_, ?_, ?_, ?_, ?_, ?_⟩
    · simp only [fold_clear, clear_parent, hpc]
      exact hfold
    · rw [hik]
    · rw [hch]
    · intro n hn
      have hnc : n ≠ c := fun he => hn (he ▸ List.mem_cons_self c rest)
      have hnr : n ∉ rest := fun hm => hn (List.mem_cons_of_mem c hm)
      rw [hpfr n hnr]
      exact Function.update_noteq hnc _ _
    · intro n hn
      have hnc : n ≠ c := fun he => hn (he ▸ List.mem_cons_self c rest)
      have hnr : n ∉ rest := fun hm => hn (List.mem_cons_of_mem c hm)
      rw [hrfr n hnr]
      exact Function.update_noteq hnc _ _
    · intro c' hc'
      rcases List.mem_cons.mp hc' with he | hm
      · subst he
        rw [hpfr c' hcr]
        exact Function.update_same ..
      · exact hpin c' hm
    · intro c' hc'
      rcases List.mem_cons.mp hc' with he | hm
      · subst he
        rw [hrfr c' hcr]
        exact Function.update_same ..
      · have hne : c' ≠ c := fun he => hcr (he ▸ hm)
        rw [hrin c' hm, Function.update_noteq hne]
    · rw [hcs]
      cases hk : s.isSynth c
      all_goals simp [hk, Function.update_same, List.countP_cons]
      all_goals omega
    · rw [hcg]
      cases hk : s.isSynth c
      all_goals simp [hk, Function.update_same, List.countP_cons]
      all_goals omega

/-- C8: on a group whose child collection is duplicate-free, whose
children all point back to it, and whose cached counters are accurate,
`abstract_group::free_children` empties the child collection, zeroes
both cached counters, and leaves every former direct child detached
(null parent pointer) with its attach-time reference released. -/
theorem free_children_spec : ∀ (s : SrvState) (g : Nat),
    (∀ c ∈ s.children g, s.parent c = some g) →
    (s.children g).Nodup →
    s.childSynths g = (s.children g).countP (fun c => s.isSynth c) →
    s.childGroups g = (s.children g).countP (fun c => !s.isSynth c) →
    ∃ s', free_children s g = some s'
      ∧ s'.children g = []
      ∧ s'.childSynths g = 0
      ∧ s'.childGroups g = 0
      ∧ ∀ c ∈ s.children g,
          s'.parent c = none ∧ s'.refCount c = s.refCount c - 1 := by
  intro s g hpar hnd hcs hcg
  obtain ⟨sf, hfold, _, _, _, _, hpin, hrin, hfcs, hfcg⟩ :=
    fold_clear_ok (s.children g) s g hpar hnd
  refine ⟨{ sf with children := Function.update sf.children g [] },
    ?_, ?_, ?_, ?_, ?_⟩
  · rw [free_children, hfold]
    rfl
  · exact Function.update_same ..
  · simp [hfcs, hcs]
  · simp [hfcg, hcg]
  · intro c hc
    exact ⟨hpin c hc, hrin c hc⟩

/-- C8 witness: clearing group 0 of `bulk_state`, whose children are
the synth 1 and the group 2. -/
theorem free_children_spec_witness :
    ∃ s', free_children bulk_state 0 = some s'
      ∧ s'.children 0 = []
      ∧ s'.childSynths 0 = 0
      ∧ s'.childGroups 0 = 0 := by
  obtain ⟨s', h1, h2, h3, h4, _⟩ :=
    free_children_spec bulk_state 0 (by decide) (by decide)
      (by decide) (by decide)
  exact ⟨s', h1, h2, h3, h4⟩

end NovaServer
